import Mathlib

/-!
Verification development for the `libhttp` server harness (4thel00z/libhttp).

The Go sources are embedded shallowly:

* `Service`, `Filter`, `Service.Filter` model `service.go`'s function types
  and the `Filter` combinator.
* `HSTSFilter` models `hsts.go`.
* `listenAddr` / `listenUnixPath` model the address-resolution logic at the
  top of `Listen`, `ListenTLS`, `ListenUnix`, `ListenUnixTLS` in `server.go`.
* `defaultTLSConfig` / `serveTLSSetup` model the TLS-configuration defaulting
  in `ServeTLS`.
* `stopBody` / `stopCall` / `runStops` model `Server.Stop`.  `Stop` holds the
  mutex `shutdownFuncsM` for its whole duration, so any set of concurrent
  `Stop` calls is serialized by that mutex; the model folds the calls in an
  arbitrary arrival order, which covers every schedule.  The body's event
  trace records the coordinator's program order, with each parallel branch's
  completion event placed (as `sync.WaitGroup.Wait` guarantees) before the
  join; all properties proved about the trace are invariant under the
  interleavings the code permits.
* `RStep` / `RaceReach` give a finer, mutex-explicit transition system for
  one `Stop` caller racing one `addShutdownFunc` caller.
-/

namespace LibHttp

/-- Errors visible to the lifecycle code.  `errServerClosed` is
`net/http.ErrServerClosed`, the sentinel returned by `Serve`/`ServeTLS` when
the listener is closed by `Shutdown`/`Close`. -/
inductive Err
  | errServerClosed
  | ctxCanceled
  | deadlineExceeded
  | other (msg : String)
deriving DecidableEq

/-- A deadline-bearing `context.Context`, abstracted to whether it has
already expired (been cancelled or passed its deadline). -/
structure Ctx where
  expired : Bool
deriving DecidableEq

/-- The context built by `context.WithCancel(context.Background())` followed
by an immediate `cancel()` in `Serve`/`ServeTLS`'s goroutine. -/
def cancelledCtx : Ctx := ⟨true⟩

/-- `monzo/slog` severities, in increasing order of severity. -/
inductive Severity
  | trace
  | debug
  | info
  | warn
  | error
  | critical
deriving DecidableEq

/-- Numeric rank of a severity; `critical` is the highest. -/
def sevRank : Severity → Nat
  | Severity.trace => 0
  | Severity.debug => 1
  | Severity.info => 2
  | Severity.warn => 3
  | Severity.error => 4
  | Severity.critical => 5

/-! ## Pipeline (service.go, hsts.go) -/

/-- An inbound request.  The `trace` field is observational instrumentation
used to record the order in which pipeline stages see the request. -/
structure Request where
  trace : List String

/-- An outbound response: headers (each name maps to its list of values, as
in `net/http.Header`), a body, and the observational trace. -/
structure Response where
  header : String → List String
  body : String
  trace : List String

/-- `type Service func(req Request) Response` -/
def Service : Type := Request → Response

/-- `type Filter func(req Request, svc Service) Response` -/
def Filter : Type := Request → Service → Response

/-- `func (svc Service) Filter(f Filter) Service` from service.go:
vends a new service wrapped in the provided filter. -/
def Service.Filter (svc : Service) (f : LibHttp.Filter) : Service :=
  fun req => f req svc

/-- `Header.Set` from `net/http`: replaces all values of the key with the
single given value. -/
def headerSet (h : String → List String) (k v : String) : String → List String :=
  fun k2 => if k2 = k then [v] else h k2

/-- `HSTSDefaultMaxAge = 63072000` from hsts.go. -/
def HSTSDefaultMaxAge : Int := 63072000

/-- `HSTSFilter` from hsts.go: call the downstream service, then set the
`Strict-Transport-Security` header on its response. -/
def HSTSFilter (maxAge : Int) : LibHttp.Filter :=
  fun request service =>
    let response := service request
    { response with
        header := headerSet response.header "Strict-Transport-Security"
          ("max-age=" ++ toString maxAge ++ "; includeSubDomains") }

/-- An instrumented pipeline stage: records `pre` on the request trace on the
way down, delegates downstream, and records `post` on the response trace on
the way up.  A generic shape for filters such as `ErrorFilter`, `H2cFilter`. -/
def tracedStage (pre post : String) : LibHttp.Filter :=
  fun req svc =>
    let resp := svc { req with trace := req.trace ++ [pre] }
    { resp with trace := resp.trace ++ [post] }

/-- An instrumented terminal handler: records `t` and answers. -/
def tracedTerminal (t : String) : Service :=
  fun req => { header := fun _ => [], body := "", trace := req.trace ++ [t] }

/-! ## TLS defaulting (ServeTLS in server.go) -/

/-- The fields of `crypto/tls.Config` that `ServeTLS` sets. -/
structure TLSConfig where
  minVersion : Nat
  curvePreferences : List Nat
  preferServerCipherSuites : Bool
  cipherSuites : List Nat
deriving DecidableEq

/-- `crypto/tls` protocol and identifier constants used by server.go. -/
def versionTLS12 : Nat := 0x0303

def curveP256 : Nat := 23

def curveP384 : Nat := 24

def curveP521 : Nat := 25

def tlsEcdheRsaWithAes256GcmSha384 : Nat := 0xc030

def tlsEcdheRsaWithAes256CbcSha : Nat := 0xc014

def tlsRsaWithAes256GcmSha384 : Nat := 0x009d

def tlsRsaWithAes256CbcSha : Nat := 0x0035

/-- The `tls.Config` literal built by `ServeTLS` when `cfg == nil`. -/
def defaultTLSConfig : TLSConfig :=
  { minVersion := versionTLS12
  , curvePreferences := [curveP521, curveP384, curveP256]
  , preferServerCipherSuites := true
  , cipherSuites :=
      [ tlsEcdheRsaWithAes256GcmSha384
      , tlsEcdheRsaWithAes256CbcSha
      , tlsRsaWithAes256GcmSha384
      , tlsRsaWithAes256CbcSha ] }

/-- The TLS-relevant fields of the `http.Server` that `ServeTLS` builds:
its `TLSConfig` and the key set of its `TLSNextProto` map (built with
`make(map[...], 0)`, i.e. empty, disabling protocol upgrade negotiation). -/
structure TLSServerSetup where
  tlsConfig : TLSConfig
  tlsNextProtoKeys : List String
deriving DecidableEq

/-- `ServeTLS`'s construction of the `http.Server`'s TLS fields: a `nil`
configuration is replaced by `defaultTLSConfig`, an explicit one is used
unmodified; `TLSNextProto` is always the empty map. -/
def serveTLSSetup (cfg : Option TLSConfig) : TLSServerSetup :=
  { tlsConfig := cfg.getD defaultTLSConfig
  , tlsNextProtoKeys := [] }

/-! ## Address and socket-path resolution (Listen / ListenUnix) -/

/-- Digits of a decimal literal, `none` when empty or not all digits,
mirroring the digit scan of `strconv.Atoi`. -/
def parseDigits : List Char → Option Nat
  | [] => none
  | cs => cs.foldl
      (fun acc c =>
        match acc with
        | none => none
        | some n => if c.isDigit then some (n * 10 + (c.toNat - 48)) else none)
      (some 0)

/-- `strconv.Atoi`: optional sign, decimal digits, error when empty, when a
non-digit appears, or when the value overflows a 64-bit int. -/
def atoi (s : String) : Option Int :=
  match s.toList with
  | [] => none
  | c :: rest =>
    let signed : Bool × List Char :=
      if c = '-' then (true, rest)
      else if c = '+' then (false, rest)
      else (false, c :: rest)
    match parseDigits signed.2 with
    | none => none
    | some n =>
      let v : Int := if signed.1 then -(n : Int) else (n : Int)
      if v < -(2 ^ 63) ∨ (2 ^ 63 - 1 : Int) < v then none else some v

/-- The address-resolution logic at the top of `Listen` (and `ListenTLS`):
use the passed `addr` when non-empty; otherwise `LISTEN_ADDR` when set;
otherwise `:PORT` when `PORT` parses as a non-negative integer; otherwise
`":0"`.  `getenv` models `os.Getenv` (unset variables yield `""`). -/
def listenAddr (addr : String) (getenv : String → String) : String :=
  if addr ≠ "" then addr
  else if getenv "LISTEN_ADDR" ≠ "" then getenv "LISTEN_ADDR"
  else
    match atoi (getenv "PORT") with
    | some port => if 0 ≤ port then ":" ++ toString port else ":0"
    | none => ":0"

/-- Host part of a `host:port` address specification (empty host means all
interfaces for `net.ListenTCP`; loopback-only would be e.g. `127.0.0.1`). -/
def hostOf (a : String) : String :=
  String.mk (a.toList.takeWhile (fun c => c != ':'))

/-- The socket-path resolution logic at the top of `ListenUnix` (and
`ListenUnixTLS`): use the passed `path` when non-empty; otherwise
`LISTEN_PATH` when set; otherwise `os.TempDir()` itself. -/
def listenUnixPath (path : String) (getenv : String → String)
    (tempDir : String) : String :=
  if path ≠ "" then path
  else if getenv "LISTEN_PATH" ≠ "" then getenv "LISTEN_PATH"
  else tempDir

/-- Whether the first character list leads the second (one is an initial
segment of the other). -/
def leadsWith : List Char → List Char → Bool
  | [], _ => true
  | _ :: _, [] => false
  | c :: cs, d :: ds => c == d && leadsWith cs ds

/-- A path strictly beneath a directory (the spec's "a generated path under
the system temporary directory" requires at least this much: the path extends
the directory and is not the directory itself). -/
def underTempDir (p dir : String) : Bool :=
  leadsWith dir.toList p.toList && p != dir

/-! ## The transport engine (net/http), abstracted

`Server.Stop` delegates the drain to `http.Server.Shutdown` and the forceful
close to `http.Server.Close`.  Their outcomes are environment parameters. -/

/-- Environment for one shutdown: whether connections are still active when
the drain would have to wait, whether a graceful drain completes within the
context's deadline, and the result of `http.Server.Close`. -/
structure HttpEnv where
  activeConns : Bool
  gracefulOk : Bool
  closeErr : Option Err
deriving DecidableEq

/-- Result of `http.Server.Shutdown(ctx)` (external collaborator, modelled
from its documented semantics): with nothing left to drain it returns `nil`
even on an expired context; otherwise an already-expired context produces
`ctx.Err()` immediately (no graceful window), and a live context produces
`nil` on a timely drain or the context's error on expiry. -/
def shutdownResult (ctx : Ctx) (env : HttpEnv) : Option Err :=
  if env.activeConns = false then none
  else if ctx.expired then some Err.ctxCanceled
  else if env.gracefulOk then none
  else some Err.deadlineExceeded

/-- Actions taken by the drain goroutine inside `Server.Stop`. -/
inductive DEv
  | callShutdown
  | log (s : Severity)
  | callClose
  | panicEv
deriving DecidableEq

/-- The drain branch of `Server.Stop`: `srv.Shutdown(ctx)`; on error,
`slog.Debug` then `srv.Close()`; if that also errors, `slog.Critical` and
`panic` (the trace ends there: the process dies). -/
def drainEvents (ctx : Ctx) (env : HttpEnv) : List DEv :=
  match shutdownResult ctx env with
  | none => [DEv.callShutdown]
  | some _ =>
    match env.closeErr with
    | none => [DEv.callShutdown, DEv.log Severity.debug, DEv.callClose]
    | some _ =>
        [DEv.callShutdown, DEv.log Severity.debug, DEv.callClose,
         DEv.log Severity.critical, DEv.panicEv]

/-- Whether the drain branch panics (both the graceful drain and the
forceful close failed): the unrecoverable escalation. -/
def drainFatal (ctx : Ctx) (env : HttpEnv) : Bool :=
  match shutdownResult ctx env, env.closeErr with
  | some _, some _ => true
  | _, _ => false

/-! ## Server.Stop (server.go) -/

/-- Outcome of a shutdown participant's own work.  A participant returns no
value to the coordinator; this is purely what happened inside it. -/
inductive PResult
  | ok
  | timedOut
  | internalFailure
deriving DecidableEq

/-- The mutable state of a `Server`: the `shuttingDown` channel (closed or
not), the `shutdownOnce` latch, and the registered `shutdownFuncs`. -/
structure SrvState where
  chanClosed : Bool
  onceDone : Bool
  funcs : List (Ctx → PResult)

/-- `Server` state as `Serve`/`ServeTLS` construct it: channel open, once
unused, no shutdown functions registered yet. -/
def serveInit : SrvState :=
  { chanClosed := false, onceDone := false, funcs := [] }

/-- `Server.addShutdownFunc`: append under the mutex. -/
def addShutdownFunc (st : SrvState) (f : Ctx → PResult) : SrvState :=
  { st with funcs := st.funcs ++ [f] }

/-- Coordinator events recorded while running `Stop` calls.  `ret c` is
caller `c`'s `Stop` invocation returning. -/
inductive Ev
  | closeChan
  | launchDrain (ctx : Ctx)
  | launchFunc (i : Nat) (ctx : Ctx)
  | drainRet
  | funcRet (i : Nat) (r : PResult)
  | joined
  | ret (caller : Nat)
  | panicEv
deriving DecidableEq

/-- Whether an event is some caller's `Stop` returning. -/
def Ev.isRet : Ev → Bool
  | Ev.ret _ => true
  | _ => false

/-- Launch events for the participant goroutines, in registration order:
`for _, f := range s.shutdownFuncs { wg.Add(1); go ... }`. -/
def launchFuncEvents (ctx : Ctx) (start : Nat) : Nat → List Ev
  | 0 => []
  | n + 1 => Ev.launchFunc start ctx :: launchFuncEvents ctx (start + 1) n

/-- Completion events of the participant goroutines: each participant is
invoked once with the `Stop` context and returns with its own outcome. -/
def funcRetEvents (ctx : Ctx) (start : Nat) :
    List (Ctx → PResult) → List Ev
  | [] => []
  | f :: fs => Ev.funcRet start (f ctx) :: funcRetEvents ctx (start + 1) fs

/-- The body of `shutdownOnce.Do` in `Server.Stop`: close `shuttingDown`,
launch the drain goroutine and one goroutine per registered function (each
passed the same `ctx`), then `wg.Wait()` and return.  Branch completions are
recorded before the join, as `WaitGroup.Wait` guarantees; if the drain branch
panics the process dies and no join or return happens. -/
def stopBody (caller : Nat) (ctx : Ctx) (env : HttpEnv)
    (funcs : List (Ctx → PResult)) : List Ev :=
  [Ev.closeChan, Ev.launchDrain ctx]
    ++ launchFuncEvents ctx 0 funcs.length
    ++ (if drainFatal ctx env then [Ev.panicEv]
        else [Ev.drainRet] ++ funcRetEvents ctx 0 funcs
          ++ [Ev.joined, Ev.ret caller])

/-- One `Server.Stop` call, holding the mutex throughout: the first caller
(latch unused) runs the body; later callers find the latch used and return
immediately. -/
def stopCall (ctx : Ctx) (env : HttpEnv) (st : SrvState) (caller : Nat) :
    SrvState × List Ev :=
  if st.onceDone then (st, [Ev.ret caller])
  else ({ st with onceDone := true, chanClosed := true },
        stopBody caller ctx env st.funcs)

/-- A sequence of `Stop` calls in arrival order.  The calls are serialized
because each holds `shutdownFuncsM` for its whole duration; the arrival
order is arbitrary, so this covers every schedule of concurrent callers. -/
def runStops (ctx : Ctx) (env : HttpEnv) :
    SrvState → List Nat → SrvState × List Ev
  | st, [] => (st, [])
  | st, c :: cs =>
    let r1 := stopCall ctx env st c
    let r2 := runStops ctx env r1.1 cs
    (r2.1, r1.2 ++ r2.2)

/-! ## The background accept loop (Serve / ServeTLS) -/

/-- Actions of the goroutine wrapping `srv.Serve(l)` / `srv.ServeTLS(...)`. -/
inductive SEv
  | logError
  | stopWith (ctx : Ctx)
deriving DecidableEq

/-- What `Serve`'s background goroutine does once the accept loop returns
`res`: nothing on `nil` or `http.ErrServerClosed`; otherwise `slog.Error`
and `s.Stop(ctx)` with a freshly cancelled context. -/
def serveGoroutine (res : Option Err) : List SEv :=
  match res with
  | none => []
  | some e =>
    if e = Err.errServerClosed then []
    else [SEv.logError, SEv.stopWith cancelledCtx]

/-- `ServeTLS`'s background goroutine: same handling, verbatim. -/
def serveTLSGoroutine (res : Option Err) : List SEv :=
  match res with
  | none => []
  | some e =>
    if e = Err.errServerClosed then []
    else [SEv.logError, SEv.stopWith cancelledCtx]

/-- The error `Serve` returns to its caller: always `nil` (`return s, nil`);
accept-loop failures are handled in the background, never surfaced. -/
def serveReturnErr : Option Err := none

/-- The error `ServeTLS` returns to its caller: always `nil`. -/
def serveTLSReturnErr : Option Err := none

/-! ## Stop / addShutdownFunc race (mutex-explicit model)

One thread runs `Server.Stop` (lock; close channel and launch branches;
wait for the branches; unlock) and one runs `Server.addShutdownFunc`
(lock; append; unlock), both contending for `shutdownFuncsM`. -/

/-- Who holds `shutdownFuncsM`. -/
inductive MHolder
  | free
  | mstop
  | madd
deriving DecidableEq

/-- Joint state of the two threads.  `stopPC`: 0 before `Lock`, 1 in the
critical section before the `Once` body, 2 after launching the branches
(blocked in `wg.Wait`), 3 after the wait, 4 returned.  `addPC`: 0 before
`Lock`, 1 in the critical section, 2 after the append, 3 returned.
`launchedIncludesAdd` snapshots, at launch time, whether the racing
registration had already been appended (i.e. whether it is invoked). -/
structure RaceState where
  stopPC : Nat
  addPC : Nat
  mutex : MHolder
  branchesDone : Bool
  chanClosed : Bool
  funcAppended : Bool
  launchedIncludesAdd : Bool
deriving DecidableEq

/-- Action labels of the race model. -/
inductive RAct
  | stopLock
  | stopBodyAct
  | branchesFinish
  | stopJoin
  | stopUnlock
  | addLock
  | addAppend
  | addUnlock
deriving DecidableEq

/-- Small-step semantics of the race: a mutex acquisition is enabled only
when the mutex is free; `wg.Wait` completes only once the branches are
done; the branches finishing is an environment step. -/
inductive RStep : RaceState → RAct → RaceState → Prop
  | stopLock (s : RaceState) (h1 : s.stopPC = 0) (h2 : s.mutex = MHolder.free) :
      RStep s RAct.stopLock { s with stopPC := 1, mutex := MHolder.mstop }
  | stopBodyAct (s : RaceState) (h : s.stopPC = 1) :
      RStep s RAct.stopBodyAct
        { s with stopPC := 2, chanClosed := true,
                 launchedIncludesAdd := s.funcAppended }
  | branchesFinish (s : RaceState) (h : s.branchesDone = false) :
      RStep s RAct.branchesFinish { s with branchesDone := true }
  | stopJoin (s : RaceState) (h1 : s.stopPC = 2) (h2 : s.branchesDone = true) :
      RStep s RAct.stopJoin { s with stopPC := 3 }
  | stopUnlock (s : RaceState) (h1 : s.stopPC = 3) (h2 : s.mutex = MHolder.mstop) :
      RStep s RAct.stopUnlock { s with stopPC := 4, mutex := MHolder.free }
  | addLock (s : RaceState) (h1 : s.addPC = 0) (h2 : s.mutex = MHolder.free) :
      RStep s RAct.addLock { s with addPC := 1, mutex := MHolder.madd }
  | addAppend (s : RaceState) (h : s.addPC = 1) :
      RStep s RAct.addAppend { s with addPC := 2, funcAppended := true }
  | addUnlock (s : RaceState) (h1 : s.addPC = 2) (h2 : s.mutex = MHolder.madd) :
      RStep s RAct.addUnlock { s with addPC := 3, mutex := MHolder.free }

/-- Initial state: both threads before their `Lock`, mutex free. -/
def initRace : RaceState :=
  { stopPC := 0, addPC := 0, mutex := MHolder.free, branchesDone := false,
    chanClosed := false, funcAppended := false, launchedIncludesAdd := false }

/-- Reachability from the initial state. -/
inductive RaceReach : RaceState → Prop
  | init : RaceReach initRace
  | step (s : RaceState) (a : RAct) (t : RaceState) :
      RaceReach s → RStep s a t → RaceReach t

/-- The claim "registering a shutdown participant never blocks": in every
reachable state in which the registering thread is about to acquire the
mutex, its acquisition step is enabled. -/
def RegistrationNeverBlocks : Prop :=
  ∀ s : RaceState, RaceReach s → s.addPC = 0 →
    ∃ t : RaceState, RStep s RAct.addLock t

/-! ## Theorems -/

/-- Claim C5: for stages A (registered first) then B (registered second)
wrapping terminal handler T, a request observes B's pre-processing, then
A's pre-processing, then T, then A's post-processing, then B's
post-processing — the last-registered stage is outermost. -/
theorem filter_last_registered_outermost
    (aPre aPost bPre bPost t : String) (req : Request) :
    ((Service.Filter
        (Service.Filter (tracedTerminal t) (tracedStage aPre aPost))
        (tracedStage bPre bPost)) req).trace
      = req.trace ++ [bPre, aPre, t, aPost, bPost] := by
  simp [Service.Filter, tracedStage, tracedTerminal]

/-- Claim C9: with a nil TLS configuration, `ServeTLS` constructs the secure
default — TLS 1.2 floor, server-preferred cipher ordering, the fixed curve
list, the fixed strong cipher-suite list — and an empty `TLSNextProto` map;
an explicit configuration is used unmodified. -/
theorem serveTLS_default_config :
    (serveTLSSetup none).tlsConfig.minVersion = versionTLS12
    ∧ versionTLS12 = 0x0303
    ∧ (serveTLSSetup none).tlsConfig.curvePreferences
        = [curveP521, curveP384, curveP256]
    ∧ (serveTLSSetup none).tlsConfig.preferServerCipherSuites = true
    ∧ (serveTLSSetup none).tlsConfig.cipherSuites
        = [tlsEcdheRsaWithAes256GcmSha384, tlsEcdheRsaWithAes256CbcSha,
           tlsRsaWithAes256GcmSha384, tlsRsaWithAes256CbcSha]
    ∧ (serveTLSSetup none).tlsNextProtoKeys = []
    ∧ (∀ c : TLSConfig, (serveTLSSetup (some c)).tlsConfig = c) :=
  ⟨rfl, rfl, rfl, rfl, rfl, rfl, fun _ => rfl⟩

/-- Claim C10: wrapping a service with `HSTSFilter maxAge` yields exactly the
downstream response with its `Strict-Transport-Security` header set to
`max-age=<maxAge>; includeSubDomains`; every other header, the body and the
trace are unchanged. -/
theorem hsts_filter_sets_header (maxAge : Int) (svc : Service) (req : Request) :
    ((Service.Filter svc (HSTSFilter maxAge)) req).header
        "Strict-Transport-Security"
      = ["max-age=" ++ toString maxAge ++ "; includeSubDomains"]
    ∧ (∀ k : String, k ≠ "Strict-Transport-Security" →
        ((Service.Filter svc (HSTSFilter maxAge)) req).header k
          = (svc req).header k)
    ∧ ((Service.Filter svc (HSTSFilter maxAge)) req).body = (svc req).body
    ∧ ((Service.Filter svc (HSTSFilter maxAge)) req).trace = (svc req).trace := by
  refine ⟨?_, fun k hk => ?_, rfl, rfl⟩
  · simp [Service.Filter, HSTSFilter, headerSet]
  · simp [Service.Filter, HSTSFilter, headerSet, hk]

/-- Application of `hsts_filter_sets_header` at the default max age and a
concrete service and request. -/
theorem hsts_filter_sets_header_witness :
    ((Service.Filter (tracedTerminal "T") (HSTSFilter HSTSDefaultMaxAge))
        ⟨[]⟩).header "Strict-Transport-Security"
      = ["max-age=" ++ toString HSTSDefaultMaxAge ++ "; includeSubDomains"] :=
  (hsts_filter_sets_header HSTSDefaultMaxAge (tracedTerminal "T") ⟨[]⟩).1

/-- Claim C6, behavior at the failing input: with an empty address argument
and no environment variables set, `Listen` resolves to `":0"`, whose host
part is empty — i.e. an ephemeral port on ALL interfaces, not on the
loopback interface only as the code's own comment states. -/
theorem listen_fallback_binds_all_interfaces :
    listenAddr "" (fun _ => "") = ":0"
    ∧ hostOf (listenAddr "" (fun _ => "")) = ""
    ∧ hostOf (listenAddr "" (fun _ => "")) ≠ "127.0.0.1" := by
  refine ⟨rfl, rfl, by decide⟩

/-- Claim C8, counterexample: with an empty path argument and `LISTEN_PATH`
unset, `ListenUnix` falls back to the temporary directory itself, which is
not a generated path strictly beneath the temporary directory. -/
theorem listenUnix_fallback_counterexample :
    listenUnixPath "" (fun _ => "") "/tmp" = "/tmp"
    ∧ underTempDir (listenUnixPath "" (fun _ => "") "/tmp") "/tmp" = false := by
  refine ⟨rfl, by decide⟩

/-- Claim C8 as amended: `ListenUnix` uses a non-empty explicit path as
given; otherwise `LISTEN_PATH` when set; otherwise the system temporary
directory path itself (`os.TempDir()`), not a generated path beneath it. -/
theorem listenUnix_path_precedence (path : String) (getenv : String → String)
    (tempDir : String) :
    (path ≠ "" → listenUnixPath path getenv tempDir = path)
    ∧ (path = "" → getenv "LISTEN_PATH" ≠ "" →
        listenUnixPath path getenv tempDir = getenv "LISTEN_PATH")
    ∧ (path = "" → getenv "LISTEN_PATH" = "" →
        listenUnixPath path getenv tempDir = tempDir) := by
  refine ⟨fun h => ?_, fun h1 h2 => ?_, fun h1 h2 => ?_⟩
  · simp [listenUnixPath, h]
  · simp [listenUnixPath, h1, h2]
  · simp [listenUnixPath, h1, h2]

/-- Application of `listenUnix_path_precedence` at a concrete empty path,
empty environment, and temporary directory. -/
theorem listenUnix_path_precedence_witness :
    listenUnixPath "" (fun _ => "") "/tmp" = "/tmp" :=
  (listenUnix_path_precedence "" (fun _ => "") "/tmp").2.2 rfl rfl

/-- Claim C3: during `Stop`, a failed graceful drain is followed immediately
by a forceful close; a failed forceful close is logged at the highest
severity (`Critical`) and escalates to a process-fatal `panic`, with no
further remediation after it. -/
theorem stop_drain_escalation (ctx : Ctx) (env : HttpEnv) (e : Err)
    (h : shutdownResult ctx env = some e) :
    (drainEvents ctx env).take 3
        = [DEv.callShutdown, DEv.log Severity.debug, DEv.callClose]
    ∧ (env.closeErr = none →
        drainEvents ctx env
            = [DEv.callShutdown, DEv.log Severity.debug, DEv.callClose]
          ∧ drainFatal ctx env = false)
    ∧ (∀ e2 : Err, env.closeErr = some e2 →
        drainEvents ctx env
            = [DEv.callShutdown, DEv.log Severity.debug, DEv.callClose,
               DEv.log Severity.critical, DEv.panicEv]
          ∧ drainFatal ctx env = true)
    ∧ (∀ s : Severity, sevRank s ≤ sevRank Severity.critical) := by
  refine ⟨?_, fun hc => ?_, fun e2 hc => ?_, fun s => ?_⟩
  · cases hc : env.closeErr <;> simp [drainEvents, h, hc]
  · simp [drainEvents, drainFatal, h, hc]
  · simp [drainEvents, drainFatal, h, hc]
  · cases s <;> simp [sevRank]

/-- Application of `stop_drain_escalation` to a live context whose drain
times out and whose forceful close also fails. -/
theorem stop_drain_escalation_witness :
    drainEvents ⟨false⟩ ⟨true, false, some (Err.other "close failed")⟩
        = [DEv.callShutdown, DEv.log Severity.debug, DEv.callClose,
           DEv.log Severity.critical, DEv.panicEv]
    ∧ drainFatal ⟨false⟩ ⟨true, false, some (Err.other "close failed")⟩ = true :=
  (stop_drain_escalation ⟨false⟩ ⟨true, false, some (Err.other "close failed")⟩
      Err.deadlineExceeded rfl).2.2.1 (Err.other "close failed") rfl

/-- Claim C4: when the accept loop of `Serve` or `ServeTLS` ends with any
error other than `http.ErrServerClosed`, the goroutine logs the error and
calls `Stop` with an already-cancelled context (so that, with connections
still open, the drain escalates straight to the forceful close); the
sentinel is ignored; and neither `Serve` nor `ServeTLS` surfaces the accept
loop's error as a return value. -/
theorem serve_error_forces_stop (e : Err) (h : e ≠ Err.errServerClosed) :
    serveGoroutine (some e) = [SEv.logError, SEv.stopWith cancelledCtx]
    ∧ serveTLSGoroutine (some e) = [SEv.logError, SEv.stopWith cancelledCtx]
    ∧ cancelledCtx.expired = true
    ∧ serveGoroutine (some Err.errServerClosed) = []
    ∧ serveTLSGoroutine (some Err.errServerClosed) = []
    ∧ serveReturnErr = none
    ∧ serveTLSReturnErr = none
    ∧ (∀ env : HttpEnv, env.activeConns = true →
        DEv.callClose ∈ drainEvents cancelledCtx env) := by
  refine ⟨?_, ?_, rfl, rfl, rfl, rfl, rfl, fun env henv => ?_⟩
  · simp [serveGoroutine, h]
  · simp [serveTLSGoroutine, h]
  · have hs : shutdownResult cancelledCtx env = some Err.ctxCanceled := by
      simp [shutdownResult, henv, cancelledCtx]
    cases hc : env.closeErr <;> simp [drainEvents, hs, hc]

/-- Application of `serve_error_forces_stop` to a concrete fatal serve
error. -/
theorem serve_error_forces_stop_witness :
    serveGoroutine (some (Err.other "accept failed"))
      = [SEv.logError, SEv.stopWith cancelledCtx] :=
  (serve_error_forces_stop (Err.other "accept failed") (by decide)).1

/-- The state in which the `Stop` caller has taken the mutex, closed the
channel and launched the branches, and is blocked in `wg.Wait`, while the
registering thread has not yet acquired the mutex. -/
def blockedState : RaceState :=
  { stopPC := 2, addPC := 0, mutex := MHolder.mstop, branchesDone := false,
    chanClosed := true, funcAppended := false, launchedIncludesAdd := false }

/-- `blockedState` is reachable: the `Stop` caller locks, then runs the
`Once` body. -/
theorem blockedState_reachable : RaceReach blockedState := by
  have h1 : RStep initRace RAct.stopLock
      { initRace with stopPC := 1, mutex := MHolder.mstop } :=
    RStep.stopLock initRace rfl rfl
  have h2 : RStep { initRace with stopPC := 1, mutex := MHolder.mstop }
      RAct.stopBodyAct blockedState :=
    RStep.stopBodyAct { initRace with stopPC := 1, mutex := MHolder.mstop } rfl
  exact RaceReach.step _ _ _ (RaceReach.step _ _ _ RaceReach.init h1) h2

/-- Claim C7, counterexample: registration does not "never block" — in the
reachable state `blockedState` the registering thread's mutex acquisition is
not enabled (and stays disabled until `Stop`, holding `shutdownFuncsM` for
its whole duration, unlocks). -/
theorem registration_never_blocks_false : ¬ RegistrationNeverBlocks := by
  intro h
  obtain ⟨t, hstep⟩ := h blockedState blockedState_reachable rfl
  cases hstep with
  | addLock h1 h2 => exact absurd h2 (by decide)

/-- Only a registration already appended when the branches were launched is
among the launched participants. -/
theorem raceReach_launched_imp_appended (s : RaceState) (h : RaceReach s) :
    s.launchedIncludesAdd = true → s.funcAppended = true := by
  induction h with
  | init => intro hl; simp [initRace] at hl
  | step s a t hr hst ih =>
    intro hl
    cases hst with
    | stopLock h1 h2 => exact ih hl
    | stopBodyAct h => exact hl
    | branchesFinish h => exact ih hl
    | stopJoin h1 h2 => exact ih hl
    | stopUnlock h1 h2 => exact ih hl
    | addLock h1 h2 => exact ih hl
    | addAppend h => rfl
    | addUnlock h1 h2 => exact ih hl

/-- Claim C7 as amended: registration of a shutdown participant can block —
while the `Stop` caller holds `shutdownFuncsM` (which it holds for the whole
shutdown) no registration lock step is enabled in any reachable state — and
a registration that races the shutdown transition is silently dropped: only
a function already appended when the branches were launched is invoked. -/
theorem registration_blocks_until_stop_completes (s : RaceState)
    (h : RaceReach s) :
    (s.mutex = MHolder.mstop → ¬ ∃ t : RaceState, RStep s RAct.addLock t)
    ∧ (s.launchedIncludesAdd = true → s.funcAppended = true) := by
  refine ⟨fun hm hex => ?_, raceReach_launched_imp_appended s h⟩
  obtain ⟨t, hstep⟩ := hex
  cases hstep with
  | addLock h1 h2 => rw [hm] at h2; exact MHolder.noConfusion h2

/-- Application of `registration_blocks_until_stop_completes` at
`blockedState`. -/
theorem registration_blocks_until_stop_completes_witness :
    (blockedState.mutex = MHolder.mstop →
      ¬ ∃ t : RaceState, RStep blockedState RAct.addLock t)
    ∧ (blockedState.launchedIncludesAdd = true →
        blockedState.funcAppended = true) :=
  registration_blocks_until_stop_completes blockedState blockedState_reachable

/-! ### Trace lemmas for `Server.Stop` -/

theorem launchFuncEvents_mem (ctx : Ctx) :
    ∀ (n start : Nat) (e : Ev), e ∈ launchFuncEvents ctx start n →
      ∃ j : Nat, e = Ev.launchFunc j ctx := by
  intro n
  induction n with
  | zero => intro start e he; simp [launchFuncEvents] at he
  | succ m ih =>
    intro start e he
    simp only [launchFuncEvents] at he
    rcases List.mem_cons.mp he with h | h
    · exact ⟨start, h⟩
    · exact ih (start + 1) e h

theorem count_launchFuncEvents_eq_zero (ctx : Ctx) (n start : Nat) (x : Ev)
    (hx : ∀ j : Nat, x ≠ Ev.launchFunc j ctx) :
    (launchFuncEvents ctx start n).count x = 0 :=
  List.count_eq_zero.mpr (fun hmem => by
    obtain ⟨j, hj⟩ := launchFuncEvents_mem ctx n start x hmem
    exact hx j hj)

theorem count_launchFuncEvents_lt (ctx : Ctx) :
    ∀ (n start i : Nat), i < start →
      (launchFuncEvents ctx start n).count (Ev.launchFunc i ctx) = 0 := by
  intro n
  induction n with
  | zero => intro start i h; simp [launchFuncEvents]
  | succ m ih =>
    intro start i h
    have hne : i ≠ start := by omega
    simp [launchFuncEvents, List.count_cons, hne,
      ih (start + 1) i (by omega)]

theorem count_launchFuncEvents_self (ctx : Ctx) :
    ∀ (n start i : Nat), start ≤ i → i < start + n →
      (launchFuncEvents ctx start n).count (Ev.launchFunc i ctx) = 1 := by
  intro n
  induction n with
  | zero => intro start i h1 h2; omega
  | succ m ih =>
    intro start i h1 h2
    by_cases hi : i = start
    · subst hi
      simp [launchFuncEvents, List.count_cons,
        count_launchFuncEvents_lt ctx m (i + 1) i (by omega)]
    · simp [launchFuncEvents, List.count_cons, hi,
        ih (start + 1) i (by omega) (by omega)]

theorem funcRetEvents_mem (ctx : Ctx) :
    ∀ (fs : List (Ctx → PResult)) (start : Nat) (e : Ev),
      e ∈ funcRetEvents ctx start fs →
        ∃ (j : Nat) (r : PResult), e = Ev.funcRet j r := by
  intro fs
  induction fs with
  | nil => intro start e he; simp [funcRetEvents] at he
  | cons f fs ih =>
    intro start e he
    simp only [funcRetEvents] at he
    rcases List.mem_cons.mp he with h | h
    · exact ⟨start, f ctx, h⟩
    · exact ih (start + 1) e h

theorem count_funcRetEvents_eq_zero (ctx : Ctx) (fs : List (Ctx → PResult))
    (start : Nat) (x : Ev) (hx : ∀ (j : Nat) (r : PResult), x ≠ Ev.funcRet j r) :
    (funcRetEvents ctx start fs).count x = 0 :=
  List.count_eq_zero.mpr (fun hmem => by
    obtain ⟨j, r, hj⟩ := funcRetEvents_mem ctx fs start x hmem
    exact hx j r hj)

theorem funcRetEvents_mem_of_lt (ctx : Ctx) :
    ∀ (fs : List (Ctx → PResult)) (start i : Nat), i < fs.length →
      ∃ r : PResult, Ev.funcRet (start + i) r ∈ funcRetEvents ctx start fs := by
  intro fs
  induction fs with
  | nil => intro start i h; simp at h
  | cons f fs ih =>
    intro start i h
    cases i with
    | zero =>
      refine ⟨f ctx, ?_⟩
      simp only [funcRetEvents, Nat.add_zero]
      exact List.mem_cons_self _ _
    | succ j =>
      obtain ⟨r, hr⟩ := ih (start + 1) j (by simpa using Nat.lt_of_succ_lt_succ h)
      refine ⟨r, ?_⟩
      have he : start + (j + 1) = (start + 1) + j := by omega
      rw [he]
      simp only [funcRetEvents]
      exact List.mem_cons_of_mem _ hr

theorem isRet_launchFuncEvents (ctx : Ctx) (n start : Nat) (e : Ev)
    (he : e ∈ launchFuncEvents ctx start n) : Ev.isRet e = false := by
  obtain ⟨j, rfl⟩ := launchFuncEvents_mem ctx n start e he
  rfl

theorem isRet_funcRetEvents (ctx : Ctx) (fs : List (Ctx → PResult))
    (start : Nat) (e : Ev) (he : e ∈ funcRetEvents ctx start fs) :
    Ev.isRet e = false := by
  obtain ⟨j, r, rfl⟩ := funcRetEvents_mem ctx fs start e he
  rfl

theorem ret_take_imp_joined :
    ∀ (A R : List Ev), (∀ e ∈ A, Ev.isRet e = false) →
      ∀ (n c : Nat), Ev.ret c ∈ (A ++ Ev.joined :: R).take n →
        Ev.joined ∈ (A ++ Ev.joined :: R).take n := by
  intro A
  induction A with
  | nil =>
    intro R hA n c h
    cases n with
    | zero => simp at h
    | succ m =>
      simp only [List.nil_append, List.take_succ_cons]
      exact List.mem_cons_self _ _
  | cons a A ih =>
    intro R hA n c h
    cases n with
    | zero => simp at h
    | succ m =>
      simp only [List.cons_append, List.take_succ_cons] at h ⊢
      rcases List.mem_cons.mp h with h1 | h1
      · have ha := hA a (List.mem_cons_self a A)
        rw [← h1] at ha
        simp [Ev.isRet] at ha
      · exact List.mem_cons_of_mem a
          (ih R (fun e he => hA e (List.mem_cons_of_mem a he)) m c h1)

theorem mem_take_last_eq :
    ∀ (Q : List Ev) (x : Ev), x ∉ Q →
      ∀ n : Nat, x ∈ (Q ++ [x]).take n → (Q ++ [x]).take n = Q ++ [x] := by
  intro Q
  induction Q with
  | nil =>
    intro x hx n h
    cases n with
    | zero => simp at h
    | succ m => simp
  | cons q Q ih =>
    intro x hx n h
    cases n with
    | zero => simp at h
    | succ m =>
      simp only [List.cons_append, List.take_succ_cons] at h ⊢
      rcases List.mem_cons.mp h with rfl | h1
      · exact absurd (List.mem_cons_self x Q) hx
      · have hx2 : x ∉ Q := fun hm => hx (List.mem_cons_of_mem q hm)
        rw [ih x hx2 m h1]

theorem runStops_done (ctx : Ctx) (env : HttpEnv) :
    ∀ (cs : List Nat) (st : SrvState), st.onceDone = true →
      runStops ctx env st cs = (st, cs.map Ev.ret) := by
  intro cs
  induction cs with
  | nil => intro st h; simp [runStops]
  | cons c cs ih =>
    intro st h
    simp [runStops, stopCall, h, ih st h]

theorem stopBody_eq (c : Nat) (ctx : Ctx) (env : HttpEnv)
    (fs : List (Ctx → PResult)) (h3 : drainFatal ctx env = false) :
    stopBody c ctx env fs
      = Ev.closeChan :: Ev.launchDrain ctx ::
          (launchFuncEvents ctx 0 fs.length
            ++ Ev.drainRet :: (funcRetEvents ctx 0 fs
              ++ [Ev.joined, Ev.ret c])) := by
  simp [stopBody, h3]

/-- Claim C1: over any nonempty sequence of (mutex-serialized, arbitrarily
ordered) `Stop` calls on a freshly served instance, the trace closes the
`shuttingDown` channel exactly once and as its very first action (before any
branch is launched), the final state has the channel permanently closed and
the latch used, the shutdown body joins exactly once, every one of the N
calls returns exactly once, and no call returns before the single body
execution has completed its join. -/
theorem stop_exactly_once (ctx : Ctx) (env : HttpEnv) (st : SrvState)
    (callers : List Nat) (hne : callers ≠ [])
    (h1 : st.onceDone = false) (h2 : st.chanClosed = false)
    (h3 : drainFatal ctx env = false) :
    (runStops ctx env st callers).2.count Ev.closeChan = 1
    ∧ (runStops ctx env st callers).2.head? = some Ev.closeChan
    ∧ (runStops ctx env st callers).1.chanClosed = true
    ∧ (runStops ctx env st callers).1.onceDone = true
    ∧ (runStops ctx env st callers).2.count Ev.joined = 1
    ∧ (runStops ctx env st callers).2.countP (fun e => Ev.isRet e)
        = callers.length
    ∧ (∀ n c2 : Nat, Ev.ret c2 ∈ (runStops ctx env st callers).2.take n →
        Ev.joined ∈ (runStops ctx env st callers).2.take n) := by
  obtain ⟨c, cs, rfl⟩ : ∃ c cs, callers = c :: cs := by
    cases callers with
    | nil => exact absurd rfl hne
    | cons c cs => exact ⟨c, cs, rfl⟩
  have hrun : runStops ctx env st (c :: cs)
      = ({ st with onceDone := true, chanClosed := true },
         stopBody c ctx env st.funcs ++ cs.map Ev.ret) := by
    have hd := runStops_done ctx env cs
      { st with onceDone := true, chanClosed := true } rfl
    simp [runStops, stopCall, h1, hd]
  rw [hrun]
  have hB := stopBody_eq c ctx env st.funcs h3
  have hM0 : ∀ x : Ev, (∀ a : Nat, x ≠ Ev.ret a) → (cs.map Ev.ret).count x = 0 := by
    intro x hx
    refine List.count_eq_zero.mpr (fun hmem => ?_)
    obtain ⟨a, _, ha⟩ := List.mem_map.mp hmem
    exact hx a ha.symm
  refine ⟨?_, ?_, rfl, rfl, ?_, ?_, ?_⟩
  · rw [hB]
    simp [List.count_cons, List.count_append,
      count_launchFuncEvents_eq_zero ctx st.funcs.length 0 Ev.closeChan (by simp),
      count_funcRetEvents_eq_zero ctx st.funcs 0 Ev.closeChan (by simp),
      hM0 Ev.closeChan (by simp)]
  · rw [hB]
    simp
  · rw [hB]
    simp [List.count_cons, List.count_append,
      count_launchFuncEvents_eq_zero ctx st.funcs.length 0 Ev.joined (by simp),
      count_funcRetEvents_eq_zero ctx st.funcs 0 Ev.joined (by simp),
      hM0 Ev.joined (by simp)]
  · rw [hB]
    have hLp : (launchFuncEvents ctx 0 st.funcs.length).countP
        (fun e => Ev.isRet e) = 0 :=
      List.countP_eq_zero.mpr (fun e he => by
        simp [isRet_launchFuncEvents ctx _ 0 e he])
    have hFp : (funcRetEvents ctx 0 st.funcs).countP
        (fun e => Ev.isRet e) = 0 :=
      List.countP_eq_zero.mpr (fun e he => by
        simp [isRet_funcRetEvents ctx _ 0 e he])
    have eClose : Ev.isRet Ev.closeChan = false := rfl
    have eLaunchD : Ev.isRet (Ev.launchDrain ctx) = false := rfl
    have eDrainRet : Ev.isRet Ev.drainRet = false := rfl
    have eJoined : Ev.isRet Ev.joined = false := rfl
    have eRet : ∀ a : Nat, Ev.isRet (Ev.ret a) = true := fun _ => rfl
    simp [List.countP_cons, List.countP_append, List.countP_map,
      Function.comp_def, hLp, hFp, eClose, eLaunchD, eDrainRet, eJoined,
      eRet, List.countP_true]
  · intro n c2 hmem
    have hshape : stopBody c ctx env st.funcs ++ cs.map Ev.ret
        = (Ev.closeChan :: Ev.launchDrain ctx ::
            (launchFuncEvents ctx 0 st.funcs.length ++ Ev.drainRet ::
              funcRetEvents ctx 0 st.funcs))
          ++ Ev.joined :: (Ev.ret c :: cs.map Ev.ret) := by
      rw [hB]
      simp [List.cons_append, List.append_assoc]
    rw [hshape] at hmem ⊢
    refine ret_take_imp_joined _ _ ?_ n c2 hmem
    intro e he
    rcases List.mem_cons.mp he with rfl | he1
    · rfl
    rcases List.mem_cons.mp he1 with rfl | he2
    · rfl
    rcases List.mem_append.mp he2 with he3 | he3
    · exact isRet_launchFuncEvents ctx _ 0 e he3
    rcases List.mem_cons.mp he3 with rfl | he4
    · rfl
    · exact isRet_funcRetEvents ctx _ 0 e he4

/-- Application of `stop_exactly_once` to three concurrent `Stop` callers on
a fresh idle server. -/
theorem stop_exactly_once_witness :
    (runStops ⟨false⟩ ⟨false, true, none⟩ serveInit [0, 1, 2]).2.count
        Ev.closeChan = 1 :=
  (stop_exactly_once ⟨false⟩ ⟨false, true, none⟩ serveInit [0, 1, 2]
    (by simp) rfl rfl rfl).1

/-- Claim C2: the single executing `Stop` call launches the transport drain
and exactly one invocation per registered participant, each launch carrying
the same context `ctx`; whatever each participant's outcome (success,
timeout, or internal failure — the participant functions are arbitrary), the
drain branch and every participant branch complete, and `Stop`'s return is
the very last event, after all of them. -/
theorem stop_parallel_branches (ctx : Ctx) (env : HttpEnv) (st : SrvState)
    (caller : Nat) (h1 : st.onceDone = false)
    (h3 : drainFatal ctx env = false) :
    (∀ i : Nat, i < st.funcs.length →
      (stopCall ctx env st caller).2.count (Ev.launchFunc i ctx) = 1)
    ∧ (stopCall ctx env st caller).2.count (Ev.launchDrain ctx) = 1
    ∧ Ev.drainRet ∈ (stopCall ctx env st caller).2
    ∧ (∀ i : Nat, i < st.funcs.length →
        ∃ r : PResult, Ev.funcRet i r ∈ (stopCall ctx env st caller).2)
    ∧ Ev.ret caller ∈ (stopCall ctx env st caller).2
    ∧ (∀ n : Nat, Ev.ret caller ∈ (stopCall ctx env st caller).2.take n →
        (stopCall ctx env st caller).2.take n
          = (stopCall ctx env st caller).2) := by
  have htr : (stopCall ctx env st caller).2 = stopBody caller ctx env st.funcs := by
    simp [stopCall, h1]
  rw [htr]
  have hB := stopBody_eq caller ctx env st.funcs h3
  refine ⟨?_, ?_, ?_, ?_, ?_, ?_⟩
  · intro i hi
    rw [hB]
    simp [List.count_cons, List.count_append,
      count_launchFuncEvents_self ctx st.funcs.length 0 i (by omega) (by omega),
      count_funcRetEvents_eq_zero ctx st.funcs 0 (Ev.launchFunc i ctx) (by simp)]
  · rw [hB]
    simp [List.count_cons, List.count_append,
      count_launchFuncEvents_eq_zero ctx st.funcs.length 0
        (Ev.launchDrain ctx) (by simp),
      count_funcRetEvents_eq_zero ctx st.funcs 0 (Ev.launchDrain ctx) (by simp)]
  · rw [hB]
    simp
  · intro i hi
    obtain ⟨r, hr⟩ := funcRetEvents_mem_of_lt ctx st.funcs 0 i hi
    rw [Nat.zero_add] at hr
    refine ⟨r, ?_⟩
    rw [hB]
    simp only [List.mem_cons, List.mem_append]
    tauto
  · rw [hB]
    simp
  · intro n hmem
    rw [hB] at hmem ⊢
    have hshape : Ev.closeChan :: Ev.launchDrain ctx ::
          (launchFuncEvents ctx 0 st.funcs.length
            ++ Ev.drainRet :: (funcRetEvents ctx 0 st.funcs
              ++ [Ev.joined, Ev.ret caller]))
        = (Ev.closeChan :: Ev.launchDrain ctx ::
            (launchFuncEvents ctx 0 st.funcs.length
              ++ Ev.drainRet :: (funcRetEvents ctx 0 st.funcs ++ [Ev.joined])))
          ++ [Ev.ret caller] := by
      simp [List.cons_append, List.append_assoc]
    rw [hshape] at hmem ⊢
    refine mem_take_last_eq _ _ ?_ n hmem
    intro hq
    rcases List.mem_cons.mp hq with h0 | hq1
    · exact Ev.noConfusion h0
    rcases List.mem_cons.mp hq1 with h0 | hq2
    · exact Ev.noConfusion h0
    rcases List.mem_append.mp hq2 with hq3 | hq3
    · have hf := isRet_launchFuncEvents ctx _ 0 _ hq3
      simp [Ev.isRet] at hf
    rcases List.mem_cons.mp hq3 with h0 | hq4
    · exact Ev.noConfusion h0
    rcases List.mem_append.mp hq4 with hq5 | hq5
    · have hf := isRet_funcRetEvents ctx _ 0 _ hq5
      simp [Ev.isRet] at hf
    · have h0 := List.mem_singleton.mp hq5
      exact Ev.noConfusion h0

/-- Application of `stop_parallel_branches` to a server with two registered
participants, the first of which fails internally: both still complete. -/
theorem stop_parallel_branches_witness :
    ∃ r : PResult, Ev.funcRet 0 r ∈
      (stopCall ⟨false⟩ ⟨true, false, none⟩
        { chanClosed := false, onceDone := false,
          funcs := [fun _ => PResult.internalFailure, fun _ => PResult.ok] }
        7).2 :=
  (stop_parallel_branches ⟨false⟩ ⟨true, false, none⟩
    { chanClosed := false, onceDone := false,
      funcs := [fun _ => PResult.internalFailure, fun _ => PResult.ok] } 7
    rfl rfl).2.2.2.1 0 (by simp)

end LibHttp
